import Mathlib

/-!
Shallow embedding of the soundscan-api core (`src/app.py`).

Seconds values (durations, chunk starts, range endpoints) are modelled as `ℚ`:
the Python code manipulates them with exact arithmetic on the values produced
by `ffprobe` (addition, subtraction, `min`, `max`, comparisons, floor), and
every algorithmic claim is about that arithmetic, not about float rounding.

External collaborators (yt-dlp, ffmpeg, the recognition HTTP services) are
modelled as inputs: the total `duration` is a parameter, and the outcome of
extracting + recognizing + parsing one chunk is a `ChunkOutcome` parameter
indexed by chunk number.
-/

namespace SoundScan

/-- `CHUNK_DURATION = 15` (src/app.py line 31): seconds per chunk. -/
def CHUNK_DURATION : ℚ := 15

/-- `OVERLAP = 5` (src/app.py line 32): seconds of overlap between chunks. -/
def OVERLAP : ℚ := 5

/-- The merge tolerance used by the consolidator.  The source has no separate
constant: line 291 reuses `OVERLAP` as the merge gap, so `MERGE_GAP` is
definitionally `OVERLAP` (= 5). -/
def MERGE_GAP : ℚ := OVERLAP

/-! ### Timestamp formatting (src/app.py lines 207-215) -/

/-- Python `int()` applied to a real value: truncation toward zero. -/
def pyint (x : ℚ) : ℤ := if 0 ≤ x then ⌊x⌋ else -⌊-x⌋

/-- Python `x % y` on reals (for `y > 0`): `x - y * ⌊x / y⌋`. -/
def pymod (x y : ℚ) : ℚ := x - y * ⌊x / y⌋

/-- Python `f"{n:02d}"`: decimal rendering left-padded with `0` to width 2. -/
def pad2 (n : ℤ) : String :=
  let s := toString n
  if s.length < 2 then "0" ++ s else s

/-- `format_timestamp` (src/app.py lines 207-215).
`hours = int(seconds // 3600)` is the floor of `seconds / 3600` (Python float
floor-division followed by `int()` of an integral value),
`minutes = int((seconds % 3600) // 60)`, `secs = int(seconds % 60)`. -/
def format_timestamp (seconds : ℚ) : String :=
  let hours : ℤ := ⌊seconds / 3600⌋
  let minutes : ℤ := ⌊pymod seconds 3600 / 60⌋
  let secs : ℤ := pyint (pymod seconds 60)
  if 0 < hours then
    pad2 hours ++ ":" ++ pad2 minutes ++ ":" ++ pad2 secs
  else
    pad2 minutes ++ ":" ++ pad2 secs

/-! ### Chunk planning (src/app.py lines 239-244)

The source is a `while` loop:

    chunks = []
    current_time = 0
    while current_time < duration:
        chunk_end = min(current_time + CHUNK_DURATION, duration)
        chunks.append((current_time, chunk_end - current_time))
        current_time += CHUNK_DURATION - OVERLAP

The loop is modelled with an explicit iteration budget (`fuel`); theorem
`chunksLoop_closed_form` below shows that for `overlap < window_size` the
budget chosen in `chunk_plan` is enough, i.e. the guard `current_time <
duration`, not fuel exhaustion, is what stops the modelled loop — this is
exactly the termination argument for the source loop. -/

/-- One source window is `(current_time, chunk_end - current_time)` with
`chunk_end = min (current_time + window_size) duration`. -/
def chunksLoop (window_size overlap duration : ℚ) : ℕ → ℚ → List (ℚ × ℚ)
  | 0, _ => []
  | fuel + 1, current_time =>
    if current_time < duration then
      (current_time, min (current_time + window_size) duration - current_time) ::
        chunksLoop window_size overlap duration fuel (current_time + (window_size - overlap))
    else []

/-- The chunk planner, generic in the window size and overlap (the source
fixes them to `CHUNK_DURATION` and `OVERLAP`).  The fuel
`⌈duration / (window_size - overlap)⌉.toNat + 1` is one more than the exact
number of iterations of the source loop, so the final evaluation of the
guard is performed by the model as well. -/
def chunk_plan (window_size overlap duration : ℚ) : List (ℚ × ℚ) :=
  chunksLoop window_size overlap duration
    ((⌈duration / (window_size - overlap)⌉).toNat + 1) 0

/-- The planner as instantiated by `analyze_video` (src/app.py line 239-244). -/
def calc_chunks (duration : ℚ) : List (ℚ × ℚ) :=
  chunk_plan CHUNK_DURATION OVERLAP duration

/-! ### Data model -/

/-- One detection time range (the dict built at src/app.py lines 275-280):
`start`/`end` are the formatted display strings, `start_seconds`/`end_seconds`
the numeric endpoints. -/
structure TimeRange where
  start_fmt : String
  end_fmt : String
  start_seconds : ℚ
  end_seconds : ℚ
  deriving DecidableEq, Repr

/-- The range dict appended for a match at chunk `(start_time, chunk_duration)`
(src/app.py lines 275-280): `end_seconds = min(start_time + chunk_duration,
duration)`. -/
def mk_time_range (duration start_time chunk_duration : ℚ) : TimeRange :=
  { start_fmt := format_timestamp start_time
    end_fmt := format_timestamp (min (start_time + chunk_duration) duration)
    start_seconds := start_time
    end_seconds := min (start_time + chunk_duration) duration }

/-- The song metadata produced by the result parsers (src/app.py lines
175-185 and 194-204).  Provider passthrough payloads (`external_ids`,
`external_metadata`, `spotify`, `timecode`) are opaque echoes of the raw
response and are not modelled; no claim mentions them. -/
structure SongRecord where
  title : String
  artists : List String
  album : String
  release_date : String
  label : String
  duration : ℤ
  confidence : ℤ
  deriving DecidableEq, Repr

/-- One entry of the `detected_songs` accumulator: the parsed metadata (the
Python dict spreads `{**parsed, ...}`; modelled as a `record` field) plus the
`timestamps` and `time_ranges` lists (src/app.py lines 268-272). -/
structure Song where
  record : SongRecord
  timestamps : List ℚ
  time_ranges : List TimeRange
  deriving DecidableEq, Repr

/-- The fresh accumulator entry `{**parsed, 'timestamps': [], 'time_ranges': []}`. -/
def Song.ofRecord (parsed : SongRecord) : Song :=
  { record := parsed, timestamps := [], time_ranges := [] }

/-- `song_key = f"{parsed['title']}|{'|'.join(parsed['artists'])}"`
(src/app.py line 265). -/
def song_key (parsed : SongRecord) : String :=
  parsed.title ++ "|" ++ String.intercalate "|" parsed.artists

/-- Recording one chunk match into `detected_songs` (src/app.py lines
264-280).  The Python insertion-ordered dict is modelled as an association
list: a missing key is inserted at the end, then the entry for the key gets
the chunk start appended to `timestamps` and the chunk range appended to
`time_ranges`. -/
def record_match (duration : ℚ) (detected_songs : List (String × Song))
    (parsed : SongRecord) (start_time chunk_duration : ℚ) :
    List (String × Song) :=
  let key := song_key parsed
  let songs :=
    if detected_songs.any (fun p => p.1 = key) then detected_songs
    else detected_songs ++ [(key, Song.ofRecord parsed)]
  songs.map fun p =>
    if p.1 = key then
      (p.1, { p.2 with
        timestamps := p.2.timestamps ++ [start_time]
        time_ranges := p.2.time_ranges ++ [mk_time_range duration start_time chunk_duration] })
    else p

/-- The outcome of extracting, recognizing and parsing one chunk — the three
steps inside the per-chunk `try` block (src/app.py lines 254-262).  `ok
parsed` is a completed run with `parsed` the normalizer output (`none` = no
match); `err msg` is a raised exception with message `msg` (extraction
failure, recognition failure/timeout, or a parse error on a malformed
payload). -/
inductive ChunkOutcome where
  | ok (parsed : Option SongRecord)
  | err (msg : String)
  deriving DecidableEq, Repr

/-- The error string recorded for a failed chunk (src/app.py line 283):
`f"Chunk {i} ({format_timestamp(start_time)}): {str(e)}"`. -/
def chunk_error (i : ℕ) (start_time : ℚ) (msg : String) : String :=
  "Chunk " ++ toString i ++ " (" ++ format_timestamp start_time ++ "): " ++ msg

/-- The per-chunk loop (src/app.py lines 251-283): `for i, (start_time,
chunk_duration) in enumerate(chunks)`, accumulating `detected_songs` and
`errors`.  A failed chunk appends its error string and the loop continues. -/
def process_chunks (duration : ℚ) (outs : ℕ → ChunkOutcome) :
    List (ℚ × ℚ) → ℕ → List (String × Song) → List String →
    List (String × Song) × List String
  | [], _, detected_songs, errors => (detected_songs, errors)
  | (start_time, chunk_duration) :: rest, i, detected_songs, errors =>
    match outs i with
    | .err msg =>
      process_chunks duration outs rest (i + 1) detected_songs
        (errors ++ [chunk_error i start_time msg])
    | .ok none =>
      process_chunks duration outs rest (i + 1) detected_songs errors
    | .ok (some parsed) =>
      process_chunks duration outs rest (i + 1)
        (record_match duration detected_songs parsed start_time chunk_duration) errors

/-! ### Consolidation (src/app.py lines 286-302) -/

/-- Ordering of ranges by `start_seconds` (the `key=lambda x:
x['start_seconds']` of the `sorted` call at line 288). -/
def rangeLE (a b : TimeRange) : Prop := a.start_seconds ≤ b.start_seconds

instance : DecidableRel rangeLE := fun a b =>
  inferInstanceAs (Decidable (a.start_seconds ≤ b.start_seconds))

instance : IsTotal TimeRange rangeLE := ⟨fun a b => le_total a.start_seconds b.start_seconds⟩

instance : IsTrans TimeRange rangeLE := ⟨fun _ _ _ => le_trans⟩

/-- The in-place update of the last merged range (src/app.py lines 293-294):
`end_seconds` becomes the max of the two ends and the display string `end` is
refreshed. -/
def extend_range (last r : TimeRange) : TimeRange :=
  { last with
    end_seconds := max last.end_seconds r.end_seconds
    end_fmt := format_timestamp (max last.end_seconds r.end_seconds) }

/-- The body of the merge loop (src/app.py lines 290-296): if the merged list
is non-empty and `r.start_seconds <= last.end_seconds + OVERLAP`, extend the
last range; otherwise append `r` (`r.copy()` — value semantics). -/
def merge_step (merged_ranges : List TimeRange) (r : TimeRange) : List TimeRange :=
  match merged_ranges.getLast? with
  | some last =>
    if r.start_seconds ≤ last.end_seconds + OVERLAP then
      merged_ranges.dropLast ++ [extend_range last r]
    else merged_ranges ++ [r]
  | none => merged_ranges ++ [r]

/-- The whole merge pass for one song (src/app.py lines 287-296): sort the
ranges by `start_seconds`, then run the merge loop.  Python `sorted` is a
stable sort by key, which is exactly `List.insertionSort rangeLE`. -/
def merge_time_ranges (ranges : List TimeRange) : List TimeRange :=
  (List.insertionSort rangeLE ranges).foldl merge_step []

/-- The sort key for the final song list (src/app.py line 302):
`x['time_ranges'][0]['start_seconds'] if x['time_ranges'] else 0`. -/
def first_start (x : Song) : ℚ :=
  match x.time_ranges with
  | [] => 0
  | r :: _ => r.start_seconds

/-- Ordering of songs by first-range start (the sort at line 302). -/
def songLE (a b : Song) : Prop := first_start a ≤ first_start b

instance : DecidableRel songLE := fun a b =>
  inferInstanceAs (Decidable (first_start a ≤ first_start b))

instance : IsTotal Song songLE := ⟨fun a b => le_total (first_start a) (first_start b)⟩

instance : IsTrans Song songLE := ⟨fun _ _ _ => le_trans⟩

/-- `results['songs'].sort(key=...)` (src/app.py line 302): a stable sort by
`first_start`. -/
def sort_songs (songs : List Song) : List Song :=
  List.insertionSort songLE songs

/-- Consolidation of the grouped matches (src/app.py lines 286-302): replace
each song's ranges by the merged ranges (iterating the grouping map in
insertion order), then sort the songs by first appearance. -/
def consolidate (detected_songs : List (String × Song)) : List Song :=
  sort_songs (detected_songs.map fun p =>
    { p.2 with time_ranges := merge_time_ranges p.2.time_ranges })

/-- The analysis response (src/app.py lines 220-226 and 234-302), restricted
to the fields the claims are about (`url` is echoed input). -/
structure AnalysisResult where
  video_duration : ℚ
  video_duration_formatted : String
  analysis_chunks : ℕ
  songs : List Song
  errors : List String
  deriving DecidableEq, Repr

/-- `analyze_video` (src/app.py lines 218-307) after a successful download
and duration probe: plan the chunks, run the per-chunk loop with the
externally determined outcomes `outs`, consolidate and sort. -/
def analyze_video (duration : ℚ) (outs : ℕ → ChunkOutcome) : AnalysisResult :=
  let chunks := calc_chunks duration
  let step := process_chunks duration outs chunks 0 [] []
  { video_duration := duration
    video_duration_formatted := format_timestamp duration
    analysis_chunks := chunks.length
    songs := consolidate step.1
    errors := step.2 }

/-! ### Provider payloads and parsers (src/app.py lines 97-204)

Raw provider responses (`response.json()`) are JSON values. -/

/-- A JSON value, as returned by `response.json()`. -/
inductive JVal where
  | null
  | bool (b : Bool)
  | num (n : ℤ)
  | str (s : String)
  | arr (elems : List JVal)
  | obj (fields : List (String × JVal))

/-- Python `d.get(key, default)`.  The parsers only call it on dict values;
on a non-dict the model yields the default (Python would raise, which the
per-chunk `try` turns into a chunk error — no claim depends on that path). -/
def JVal.get (v : JVal) (key : String) (default : JVal) : JVal :=
  match v with
  | .obj fields =>
    match fields.find? (fun p => p.1 == key) with
    | some p => p.2
    | none => default
  | _ => default

/-- Coercion of a JSON field to the `String` the record stores.  The Python
dict keeps the raw value; the parsers are only ever applied to string fields,
so a non-string collapses to the `'Unknown'` sentinel in the model. -/
def JVal.asString (v : JVal) : String :=
  match v with
  | .str s => s
  | _ => "Unknown"

/-- Python truthiness of a JSON value (`not result.get('result')`). -/
def JVal.truthy (v : JVal) : Bool :=
  match v with
  | .null => false
  | .bool b => b
  | .num n => n != 0
  | .str s => s != ""
  | .arr l => !l.isEmpty
  | .obj f => !f.isEmpty

/-- `recognize_with_acrcloud` (src/app.py lines 97-138): with missing
credentials it returns the structured dict `{'error': 'ACRCloud credentials
not configured'}` (line 99-100) without performing the network call;
otherwise it returns the provider response (the signing and HTTP transfer
are external effects). -/
def recognize_with_acrcloud (access_key access_secret : String) (response : JVal) : JVal :=
  if access_key = "" ∨ access_secret = "" then
    .obj [("error", .str "ACRCloud credentials not configured")]
  else response

/-- `recognize_with_audd` (src/app.py lines 141-160): with a missing token it
returns `{'error': 'AudD API token not configured'}` (lines 143-144). -/
def recognize_with_audd (api_token : String) (response : JVal) : JVal :=
  if api_token = "" then
    .obj [("error", .str "AudD API token not configured")]
  else response

/-- `parse_acrcloud_result` (src/app.py lines 163-185): `None` unless
`result['status']['code'] == 0` and the `metadata.music` list is non-empty;
otherwise the top track's fields.  `duration_ms // 1000` is Python floor
division (`Int.fdiv`). -/
def parse_acrcloud_result (result : JVal) : Option SongRecord :=
  match (result.get "status" (.obj [])).get "code" .null with
  | .num 0 =>
    match (result.get "metadata" (.obj [])).get "music" .null with
    | .arr (track :: _) =>
      some
        { title := (track.get "title" (.str "Unknown")).asString
          artists :=
            match track.get "artists" (.arr []) with
            | .arr l => l.map fun a => (a.get "name" (.str "Unknown")).asString
            | _ => []
          album := ((track.get "album" (.obj [])).get "name" (.str "Unknown")).asString
          release_date := (track.get "release_date" (.str "Unknown")).asString
          label := (track.get "label" (.str "Unknown")).asString
          duration :=
            match track.get "duration_ms" (.num 0) with
            | .num n => Int.fdiv n 1000
            | _ => 0
          confidence :=
            match track.get "score" (.num 0) with
            | .num n => n
            | _ => 0 }
    | _ => none
  | _ => none

/-- `parse_audd_result` (src/app.py lines 188-204): `None` unless
`result['status'] == 'success'` and `result['result']` is truthy; AudD
reports a single `artist` string and no confidence (hard-coded 100). -/
def parse_audd_result (result : JVal) : Option SongRecord :=
  match result.get "status" .null with
  | .str "success" =>
    let track := result.get "result" .null
    if track.truthy then
      some
        { title := (track.get "title" (.str "Unknown")).asString
          artists := [(track.get "artist" (.str "Unknown")).asString]
          album := (track.get "album" (.str "Unknown")).asString
          release_date := (track.get "release_date" (.str "Unknown")).asString
          label := (track.get "label" (.str "Unknown")).asString
          duration := 0
          confidence := 100 }
    else none
  | _ => none

/-! ### Chunk planner: closed form -/

/-- The modelled `while` loop runs exactly `⌈(duration - t) / (window_size -
overlap)⌉` iterations from start value `t`: with at least that much fuel the
guard, not the fuel, stops the loop, and the emitted windows are at
`t, t + step, t + 2·step, …`.  This is the termination argument of the source
loop (the step `window_size - overlap` is strictly positive). -/
theorem chunksLoop_closed_form (w o D : ℚ) (hw : 0 < w - o) :
    ∀ (m fuel : ℕ) (t : ℚ), (⌈(D - t) / (w - o)⌉).toNat = m → m ≤ fuel →
      chunksLoop w o D fuel t =
        (List.range m).map fun (i : ℕ) =>
          (t + (i : ℚ) * (w - o),
            min (t + (i : ℚ) * (w - o) + w) D - (t + (i : ℚ) * (w - o))) := by
  intro m
  induction m with
  | zero =>
    intro fuel t hm _
    have hceil : ⌈(D - t) / (w - o)⌉ ≤ 0 := by omega
    have hx : (D - t) / (w - o) ≤ 0 := by
      by_contra hcon
      push_neg at hcon
      have := Int.ceil_pos.mpr hcon
      omega
    have hD : ¬ t < D := by
      intro hlt
      have : 0 < (D - t) / (w - o) := div_pos (by linarith) hw
      linarith
    cases fuel with
    | zero => simp [chunksLoop]
    | succ f => simp [chunksLoop, hD]
  | succ m ih =>
    intro fuel t hm hf
    obtain ⟨f, rfl⟩ : ∃ f, fuel = f + 1 := ⟨fuel - 1, by omega⟩
    have hceil : ⌈(D - t) / (w - o)⌉ = (m : ℤ) + 1 := by omega
    have hpos : 0 < (D - t) / (w - o) := by
      rw [Int.ceil_pos.symm]
      omega
    have htD : t < D := by
      rcases lt_or_le t D with h | h
      · exact h
      · exfalso
        have : (D - t) / (w - o) ≤ 0 :=
          div_nonpos_of_nonpos_of_nonneg (by linarith) (le_of_lt hw)
        linarith
    have hstep : (D - (t + (w - o))) / (w - o) = (D - t) / (w - o) - 1 := by
      have hDt : D - (t + (w - o)) = (D - t) - (w - o) := by ring
      rw [hDt, sub_div, div_self (ne_of_gt hw)]
    have hnext : (⌈(D - (t + (w - o))) / (w - o)⌉).toNat = m := by
      rw [hstep, Int.ceil_sub_one, hceil]
      omega
    rw [chunksLoop, if_pos htD, ih f (t + (w - o)) hnext (by omega),
      List.range_succ_eq_map, List.map_cons, List.map_map]
    congr 1
    · norm_num
    · apply List.map_congr_left
      intro i _
      have h1 : t + (↑(Nat.succ i) : ℚ) * (w - o) = t + (w - o) + ↑i * (w - o) := by
        push_cast
        ring
      simp only [Function.comp_apply, h1]

/-- `chunk_plan` in closed form: the windows sit at `i·step` for
`i < ⌈duration / step⌉` and each is the source pair
`(t, min (t + window_size) duration - t)`. -/
theorem chunk_plan_closed_form (w o D : ℚ) (hw : o < w) :
    chunk_plan w o D =
      (List.range (⌈D / (w - o)⌉).toNat).map fun (i : ℕ) =>
        ((i : ℚ) * (w - o), min ((i : ℚ) * (w - o) + w) D - (i : ℚ) * (w - o)) := by
  have h := chunksLoop_closed_form w o D (by linarith) (⌈D / (w - o)⌉).toNat
    ((⌈D / (w - o)⌉).toNat + 1) 0 (by norm_num) (by omega)
  simpa [chunk_plan] using h

/-- C2 (counterexample): the claimed window count
`ceil((total_duration - overlap) / (window_size - overlap))` is wrong for
`total_duration = 11`, `window_size = 15`, `overlap = 5`: the planner emits
the two windows `(0, 11)` and `(10, 1)`, but the formula gives
`ceil(6/10) = 1`. -/
theorem C2_count_counterexample :
    ((chunk_plan 15 5 11).length : ℤ) ≠ ⌈((11 : ℚ) - 5) / (15 - 5)⌉ := by
  have h2 : ⌈(11 : ℚ) / (15 - 5)⌉ = 2 := by
    rw [Int.ceil_eq_iff]
    norm_num
  have h1 : ⌈((11 : ℚ) - 5) / (15 - 5)⌉ = 1 := by
    rw [Int.ceil_eq_iff]
    norm_num
  have hfuel : (⌈(11 : ℚ) / (15 - 5)⌉).toNat + 1 = 3 := by
    rw [h2]
    rfl
  simp only [chunk_plan]
  rw [hfuel, h1]
  norm_num [chunksLoop]

/-- C2 (amended): for `0 ≤ overlap < window_size` the number of windows the
chunk planner emits is `ceil(total_duration / (window_size - overlap))`
clamped below at 0 (which also covers `total_duration ≤ 0`), not
`ceil((total_duration - overlap) / (window_size - overlap))`. -/
theorem C2_window_count (w o D : ℚ) (ho : 0 ≤ o) (hw : o < w) :
    (chunk_plan w o D).length = (⌈D / (w - o)⌉).toNat := by
  rw [chunk_plan_closed_form w o D hw]
  simp

/-- C2 witness: the amended count at `window_size = 15`, `overlap = 5`,
`total_duration = 11`. -/
theorem C2_window_count_witness :
    (0 : ℚ) ≤ 5 ∧ (5 : ℚ) < 15 ∧
      (chunk_plan 15 5 11).length = (⌈(11 : ℚ) / (15 - 5)⌉).toNat :=
  ⟨by norm_num, by norm_num, C2_window_count 15 5 11 (by norm_num) (by norm_num)⟩

/-- C3: for `0 ≤ overlap < window_size` the planner emits exactly the
sequence of the spec's loop — windows at `t = 0, step, 2·step, …` with window
`(t, min(window_size, limit - t))`, finitely many of them (the closed form is
a `List.range`, which is the termination claim); when `0 < limit` the final
window's end equals the limit, and when `limit ≤ 0` the sequence is empty. -/
theorem C3_chunk_planner (w o D : ℚ) (ho : 0 ≤ o) (hw : o < w) :
    chunk_plan w o D =
      (List.range (⌈D / (w - o)⌉).toNat).map
        (fun (i : ℕ) => ((i : ℚ) * (w - o), min w (D - (i : ℚ) * (w - o)))) ∧
    (0 < D → ∃ init p, chunk_plan w o D = init ++ [p] ∧ p.1 + p.2 = D) ∧
    (D ≤ 0 → chunk_plan w o D = []) := by
  have hs : 0 < w - o := by linarith
  have hform : chunk_plan w o D =
      (List.range (⌈D / (w - o)⌉).toNat).map
        (fun (i : ℕ) => ((i : ℚ) * (w - o), min w (D - (i : ℚ) * (w - o)))) := by
    rw [chunk_plan_closed_form w o D hw]
    apply List.map_congr_left
    intro i _
    have h0 : ((i : ℚ) * (w - o) + w) - (i : ℚ) * (w - o) = w := by ring
    have hmin : min ((i : ℚ) * (w - o) + w) D - (i : ℚ) * (w - o) =
        min w (D - (i : ℚ) * (w - o)) := by
      rw [← min_sub_sub_right, h0]
    rw [hmin]
  refine ⟨hform, ?_, ?_⟩
  · intro hD
    have hpos : 0 < D / (w - o) := div_pos hD hs
    have h1 : 1 ≤ ⌈D / (w - o)⌉ := Int.ceil_pos.mpr hpos
    obtain ⟨m, hm⟩ : ∃ m, (⌈D / (w - o)⌉).toNat = m + 1 :=
      ⟨(⌈D / (w - o)⌉).toNat - 1, by omega⟩
    have hle : D / (w - o) ≤ ((m : ℚ) + 1) := by
      calc D / (w - o) ≤ (⌈D / (w - o)⌉ : ℚ) := Int.le_ceil _
        _ = ((m : ℚ) + 1) := by
            have : ⌈D / (w - o)⌉ = (m : ℤ) + 1 := by omega
            rw [this]
            push_cast
            ring
    have hDle : D ≤ ((m : ℚ) + 1) * (w - o) := by
      rw [div_le_iff hs] at hle
      linarith
    have hwle : D - (m : ℚ) * (w - o) ≤ w := by nlinarith
    refine ⟨(List.range m).map
        (fun (i : ℕ) => ((i : ℚ) * (w - o), min w (D - (i : ℚ) * (w - o)))),
      ((m : ℚ) * (w - o), min w (D - (m : ℚ) * (w - o))), ?_, ?_⟩
    · rw [hform, hm, List.range_succ, List.map_append, List.map_cons, List.map_nil]
    · have : min w (D - (m : ℚ) * (w - o)) = D - (m : ℚ) * (w - o) :=
        min_eq_right hwle
      rw [this]
      ring
  · intro hD
    have hnp : D / (w - o) ≤ 0 := div_nonpos_of_nonpos_of_nonneg hD (le_of_lt hs)
    have : ⌈D / (w - o)⌉ ≤ 0 := Int.ceil_le.mpr (by exact_mod_cast hnp)
    rw [hform]
    have hz : (⌈D / (w - o)⌉).toNat = 0 := by omega
    rw [hz]
    simp

/-- C3 witness: the instantiation at `window_size = 15`, `overlap = 5`,
`total_duration = 32` (windows `(0,15)`, `(10,15)`, `(20,12)`, `(30,2)`). -/
theorem C3_chunk_planner_witness :
    (0 : ℚ) ≤ 5 ∧ (5 : ℚ) < 15 ∧
      (chunk_plan 15 5 32 =
        (List.range (⌈(32 : ℚ) / (15 - 5)⌉).toNat).map
          (fun (i : ℕ) => ((i : ℚ) * (15 - 5), min 15 (32 - (i : ℚ) * (15 - 5)))) ∧
      ((0 : ℚ) < 32 → ∃ init p, chunk_plan 15 5 32 = init ++ [p] ∧ p.1 + p.2 = 32) ∧
      ((32 : ℚ) ≤ 0 → chunk_plan 15 5 32 = [])) :=
  ⟨by norm_num, by norm_num, C3_chunk_planner 15 5 32 (by norm_num) (by norm_num)⟩

/-! ### Merge pass: recursion form and invariants -/

/-- Recursive form of the merge loop, carrying the current last merged range
as an accumulator; `foldl_merge_step_singleton` proves it equal to the
source's fold. -/
def mergeCore (a : TimeRange) : List TimeRange → List TimeRange
  | [] => [a]
  | r :: rs =>
    if r.start_seconds ≤ a.end_seconds + OVERLAP then mergeCore (extend_range a r) rs
    else a :: mergeCore r rs

theorem merge_step_concat (acc : List TimeRange) (a r : TimeRange) :
    merge_step (acc ++ [a]) r =
      if r.start_seconds ≤ a.end_seconds + OVERLAP then acc ++ [extend_range a r]
      else (acc ++ [a]) ++ [r] := by
  by_cases h : r.start_seconds ≤ a.end_seconds + OVERLAP <;>
    simp [merge_step, h]

theorem foldl_merge_step_append (rs : List TimeRange) :
    ∀ (acc : List TimeRange) (a : TimeRange),
      List.foldl merge_step (acc ++ [a]) rs = acc ++ List.foldl merge_step [a] rs := by
  induction rs with
  | nil => intro acc a; simp
  | cons r rs ih =>
    intro acc a
    simp only [List.foldl_cons]
    have h1 := merge_step_concat acc a r
    have h2 : merge_step [a] r =
        if r.start_seconds ≤ a.end_seconds + OVERLAP then [extend_range a r]
        else [a] ++ [r] := by
      simpa using merge_step_concat [] a r
    by_cases h : r.start_seconds ≤ a.end_seconds + OVERLAP
    · rw [h1, h2, if_pos h, if_pos h, ih acc (extend_range a r)]
    · rw [h1, h2, if_neg h, if_neg h, ih (acc ++ [a]) r]
      have h3 : List.foldl merge_step ([a] ++ [r]) rs = [a] ++ List.foldl merge_step [r] rs :=
        ih [a] r
      rw [h3]
      simp

theorem foldl_merge_step_singleton (rs : List TimeRange) :
    ∀ a : TimeRange, List.foldl merge_step [a] rs = mergeCore a rs := by
  induction rs with
  | nil => intro a; simp [mergeCore]
  | cons r rs ih =>
    intro a
    simp only [List.foldl_cons, mergeCore]
    have h2 : merge_step [a] r =
        if r.start_seconds ≤ a.end_seconds + OVERLAP then [extend_range a r]
        else [a] ++ [r] := by
      simpa using merge_step_concat [] a r
    by_cases h : r.start_seconds ≤ a.end_seconds + OVERLAP
    · rw [h2, if_pos h, if_pos h, ih (extend_range a r)]
    · rw [h2, if_neg h, if_neg h, foldl_merge_step_append rs [a] r, ih r]
      simp

/-- The merge pass in recursion form: sort, then `mergeCore` from the first
range. -/
theorem merge_time_ranges_eq (ranges : List TimeRange) :
    merge_time_ranges ranges =
      match List.insertionSort rangeLE ranges with
      | [] => []
      | a :: rs => mergeCore a rs := by
  unfold merge_time_ranges
  cases h : List.insertionSort rangeLE ranges with
  | nil => simp [h]
  | cons a rs =>
    simp only [List.foldl_cons]
    have h0 : merge_step [] a = [a] := by simp [merge_step]
    rw [h0, foldl_merge_step_singleton rs a]

theorem mergeCore_start_le (rs : List TimeRange) :
    ∀ a : TimeRange, List.Sorted rangeLE (a :: rs) →
      ∀ y ∈ mergeCore a rs, a.start_seconds ≤ y.start_seconds := by
  induction rs with
  | nil =>
    intro a _ y hy
    simp [mergeCore] at hy
    simp [hy]
  | cons r rs ih =>
    intro a hsort y hy
    have har : rangeLE a r := (List.sorted_cons.mp hsort).1 r (by simp)
    have hsr : List.Sorted rangeLE (r :: rs) := (List.sorted_cons.mp hsort).2
    simp only [mergeCore] at hy
    by_cases h : r.start_seconds ≤ a.end_seconds + OVERLAP
    · rw [if_pos h] at hy
      have hsort2 : List.Sorted rangeLE (extend_range a r :: rs) := by
        rw [List.sorted_cons]
        refine ⟨?_, (List.sorted_cons.mp hsr).2⟩
        intro b hb
        have : rangeLE a b := (List.sorted_cons.mp hsort).1 b (by simp [hb])
        exact this
      have := ih (extend_range a r) hsort2 y hy
      exact this
    · rw [if_neg h] at hy
      rcases List.mem_cons.mp hy with hy | hy
      · simp [hy]
      · exact le_trans har (ih r hsr y hy)

theorem mergeCore_gap (rs : List TimeRange) :
    ∀ a : TimeRange, List.Sorted rangeLE (a :: rs) →
      List.Pairwise (fun x y => x.end_seconds + OVERLAP < y.start_seconds)
        (mergeCore a rs) := by
  induction rs with
  | nil => intro a _; simp [mergeCore]
  | cons r rs ih =>
    intro a hsort
    have hsr : List.Sorted rangeLE (r :: rs) := (List.sorted_cons.mp hsort).2
    simp only [mergeCore]
    by_cases h : r.start_seconds ≤ a.end_seconds + OVERLAP
    · rw [if_pos h]
      have hsort2 : List.Sorted rangeLE (extend_range a r :: rs) := by
        rw [List.sorted_cons]
        refine ⟨?_, (List.sorted_cons.mp hsr).2⟩
        intro b hb
        exact (List.sorted_cons.mp hsort).1 b (by simp [hb])
      exact ih (extend_range a r) hsort2
    · rw [if_neg h]
      push_neg at h
      rw [List.pairwise_cons]
      refine ⟨?_, ih r hsr⟩
      intro y hy
      have hry : r.start_seconds ≤ y.start_seconds := mergeCore_start_le rs r hsr y hy
      linarith

theorem mergeCore_sorted (rs : List TimeRange) :
    ∀ a : TimeRange, List.Sorted rangeLE (a :: rs) →
      List.Sorted rangeLE (mergeCore a rs) := by
  induction rs with
  | nil => intro a _; simp [mergeCore]
  | cons r rs ih =>
    intro a hsort
    have hsr : List.Sorted rangeLE (r :: rs) := (List.sorted_cons.mp hsort).2
    have har : rangeLE a r := (List.sorted_cons.mp hsort).1 r (by simp)
    simp only [mergeCore]
    by_cases h : r.start_seconds ≤ a.end_seconds + OVERLAP
    · rw [if_pos h]
      have hsort2 : List.Sorted rangeLE (extend_range a r :: rs) := by
        rw [List.sorted_cons]
        refine ⟨?_, (List.sorted_cons.mp hsr).2⟩
        intro b hb
        exact (List.sorted_cons.mp hsort).1 b (by simp [hb])
      exact ih (extend_range a r) hsort2
    · rw [if_neg h]
      rw [List.sorted_cons]
      refine ⟨?_, ih r hsr⟩
      intro y hy
      exact le_trans har (mergeCore_start_le rs r hsr y hy)

theorem mergeCore_fixed (rs : List TimeRange) :
    ∀ a : TimeRange,
      List.Pairwise (fun x y => x.end_seconds + OVERLAP < y.start_seconds) (a :: rs) →
      mergeCore a rs = a :: rs := by
  induction rs with
  | nil => intro a _; simp [mergeCore]
  | cons r rs ih =>
    intro a hp
    have har : a.end_seconds + OVERLAP < r.start_seconds :=
      (List.pairwise_cons.mp hp).1 r (by simp)
    simp only [mergeCore]
    rw [if_neg (by linarith)]
    rw [ih r (List.pairwise_cons.mp hp).2]

/-- The merged output of the pass is sorted by `start_seconds`. -/
theorem merge_pass_sorted (ranges : List TimeRange) :
    List.Sorted rangeLE (merge_time_ranges ranges) := by
  rw [merge_time_ranges_eq]
  have hs := List.sorted_insertionSort rangeLE ranges
  cases h : List.insertionSort rangeLE ranges with
  | nil => simp
  | cons a rs =>
    rw [h] at hs
    exact mergeCore_sorted rs a hs

/-- Consecutive (hence all) merged ranges are separated by strictly more than
the merge tolerance. -/
theorem merge_pass_gap (ranges : List TimeRange) :
    List.Pairwise (fun x y => x.end_seconds + OVERLAP < y.start_seconds)
      (merge_time_ranges ranges) := by
  rw [merge_time_ranges_eq]
  have hs := List.sorted_insertionSort rangeLE ranges
  cases h : List.insertionSort rangeLE ranges with
  | nil => simp
  | cons a rs =>
    rw [h] at hs
    exact mergeCore_gap rs a hs

/-- C1: the merge pass merges a range `r` into the last merged range exactly
when the merged list is non-empty and `r.start_seconds ≤ last.end_seconds +
MERGE_GAP` (extending `last.end_seconds` to the max), appends it otherwise,
and on the sorted example `(10,22), (25,37), (70,82)` produces
`[(10,37), (70,82)]`.  (`MERGE_GAP` is the code's tolerance constant: the
source reuses `OVERLAP = 5`.) -/
theorem C1_merge_pass :
    (∀ (merged : List TimeRange) (last r : TimeRange),
        merged.getLast? = some last →
        ((r.start_seconds ≤ last.end_seconds + MERGE_GAP →
            merge_step merged r = merged.dropLast ++ [extend_range last r]) ∧
          (last.end_seconds + MERGE_GAP < r.start_seconds →
            merge_step merged r = merged ++ [r]))) ∧
    (∀ r : TimeRange, merge_step [] r = [r]) ∧
    merge_time_ranges
        [⟨"00:10", "00:22", 10, 22⟩, ⟨"00:25", "00:37", 25, 37⟩,
          ⟨"01:10", "01:22", 70, 82⟩] =
      [⟨"00:10", "00:37", 10, 37⟩, ⟨"01:10", "01:22", 70, 82⟩] := by
  refine ⟨?_, ?_, ?_⟩
  · intro merged last r hlast
    constructor
    · intro hle
      have hle2 : r.start_seconds ≤ last.end_seconds + OVERLAP := by
        simpa [MERGE_GAP] using hle
      simp [merge_step, hlast, hle2]
    · intro hgt
      have hgt2 : ¬ r.start_seconds ≤ last.end_seconds + OVERLAP := by
        simp only [MERGE_GAP] at hgt
        linarith
      simp [merge_step, hlast, hgt2]
  · intro r
    simp [merge_step]
  · norm_num [merge_time_ranges, List.insertionSort, List.orderedInsert, rangeLE,
      merge_step, extend_range, format_timestamp, pymod, pyint, pad2, OVERLAP]
    decide

/-- C1 witness: the merge branch of the step at a concrete merged list and
range (`12 ≤ 10 + MERGE_GAP`). -/
theorem C1_merge_pass_witness :
    ([⟨"00:00", "00:10", 0, 10⟩] : List TimeRange).getLast? =
        some ⟨"00:00", "00:10", 0, 10⟩ ∧
    (⟨"00:12", "00:20", 12, 20⟩ : TimeRange).start_seconds ≤
        (⟨"00:00", "00:10", 0, 10⟩ : TimeRange).end_seconds + MERGE_GAP ∧
    merge_step [⟨"00:00", "00:10", 0, 10⟩] ⟨"00:12", "00:20", 12, 20⟩ =
      ([⟨"00:00", "00:10", 0, 10⟩] : List TimeRange).dropLast ++
        [extend_range ⟨"00:00", "00:10", 0, 10⟩ ⟨"00:12", "00:20", 12, 20⟩] :=
  ⟨rfl, by norm_num [MERGE_GAP, OVERLAP],
    (C1_merge_pass.1 [⟨"00:00", "00:10", 0, 10⟩] ⟨"00:00", "00:10", 0, 10⟩
        ⟨"00:12", "00:20", 12, 20⟩ rfl).1 (by norm_num [MERGE_GAP, OVERLAP])⟩

/-- C4: the merged ranges of any consolidated song are sorted by
`start_seconds`, pairwise non-overlapping, and every pair of merged ranges is
separated by strictly more than `MERGE_GAP`. -/
theorem C4_merged_invariant (ranges : List TimeRange) :
    List.Sorted rangeLE (merge_time_ranges ranges) ∧
    List.Pairwise (fun x y => x.end_seconds < y.start_seconds)
      (merge_time_ranges ranges) ∧
    List.Pairwise (fun x y => MERGE_GAP < y.start_seconds - x.end_seconds)
      (merge_time_ranges ranges) := by
  have hgap := merge_pass_gap ranges
  have hov : (0 : ℚ) ≤ OVERLAP := by norm_num [OVERLAP]
  refine ⟨merge_pass_sorted ranges, ?_, ?_⟩
  · exact hgap.imp fun h => by linarith
  · exact hgap.imp fun h => by simp only [MERGE_GAP]; linarith

/-- C7: the merge pass is idempotent — running the pass on its own output
returns that output unchanged. -/
theorem C7_merge_idempotent (ranges : List TimeRange) :
    merge_time_ranges (merge_time_ranges ranges) = merge_time_ranges ranges := by
  have hsorted := merge_pass_sorted ranges
  have hgap := merge_pass_gap ranges
  rw [merge_time_ranges_eq (merge_time_ranges ranges),
    List.Sorted.insertionSort_eq hsorted]
  cases h : merge_time_ranges ranges with
  | nil => rfl
  | cons a rs =>
    rw [h] at hgap
    exact mergeCore_fixed rs a hgap

/-- C6: the final song list is a permutation of the grouped songs sorted by
the start of each song's first merged range; two songs with first starts 5
and 40 come out in that order from either insertion order; a song with no
ranges has sort key 0. -/
theorem C6_song_order :
    (∀ l : List Song, List.Sorted songLE (sort_songs l)) ∧
    (∀ l : List Song, (sort_songs l).Perm l) ∧
    (∀ a b : Song, first_start a = 5 → first_start b = 40 →
        sort_songs [a, b] = [a, b] ∧ sort_songs [b, a] = [a, b]) ∧
    (∀ s : Song, s.time_ranges = [] → first_start s = 0) := by
  refine ⟨?_, ?_, ?_, ?_⟩
  · intro l
    exact List.sorted_insertionSort songLE l
  · intro l
    exact List.perm_insertionSort songLE l
  · intro a b ha hb
    constructor
    · norm_num [sort_songs, List.insertionSort, List.orderedInsert, songLE, ha, hb]
    · norm_num [sort_songs, List.insertionSort, List.orderedInsert, songLE, ha, hb]
  · intro s h
    simp [first_start, h]

/-- C6 witness: two concrete songs with first starts 5 and 40, inserted in
reverse order, come out in start order. -/
theorem C6_song_order_witness :
    first_start ⟨⟨"S5", ["A"], "X", "D", "L", 0, 0⟩, [5], [⟨"00:05", "00:17", 5, 17⟩]⟩ = 5 ∧
    first_start ⟨⟨"S40", ["B"], "Y", "D", "L", 0, 0⟩, [40], [⟨"00:40", "00:52", 40, 52⟩]⟩ = 40 ∧
    sort_songs
        [⟨⟨"S40", ["B"], "Y", "D", "L", 0, 0⟩, [40], [⟨"00:40", "00:52", 40, 52⟩]⟩,
          ⟨⟨"S5", ["A"], "X", "D", "L", 0, 0⟩, [5], [⟨"00:05", "00:17", 5, 17⟩]⟩] =
      [⟨⟨"S5", ["A"], "X", "D", "L", 0, 0⟩, [5], [⟨"00:05", "00:17", 5, 17⟩]⟩,
        ⟨⟨"S40", ["B"], "Y", "D", "L", 0, 0⟩, [40], [⟨"00:40", "00:52", 40, 52⟩]⟩] :=
  ⟨rfl, rfl,
    (C6_song_order.2.2.1
      ⟨⟨"S5", ["A"], "X", "D", "L", 0, 0⟩, [5], [⟨"00:05", "00:17", 5, 17⟩]⟩
      ⟨⟨"S40", ["B"], "Y", "D", "L", 0, 0⟩, [40], [⟨"00:40", "00:52", 40, 52⟩]⟩
      rfl rfl).2⟩

/-! ### Per-chunk loop: error and song projections -/

/-- The error strings the loop appends from index `i` on (projection of
`process_chunks`). -/
def chunk_errors (outs : ℕ → ChunkOutcome) : List (ℚ × ℚ) → ℕ → List String
  | [], _ => []
  | (start_time, _) :: rest, i =>
    (match outs i with
      | .err msg => [chunk_error i start_time msg]
      | _ => ([] : List String)) ++ chunk_errors outs rest (i + 1)

/-- The grouping accumulator the loop builds from index `i` on (projection of
`process_chunks`). -/
def chunk_songs (duration : ℚ) (outs : ℕ → ChunkOutcome) :
    List (ℚ × ℚ) → ℕ → List (String × Song) → List (String × Song)
  | [], _, songs => songs
  | (start_time, chunk_duration) :: rest, i, songs =>
    chunk_songs duration outs rest (i + 1)
      (match outs i with
        | .ok (some parsed) => record_match duration songs parsed start_time chunk_duration
        | _ => songs)

theorem process_chunks_eq (duration : ℚ) (outs : ℕ → ChunkOutcome) :
    ∀ (cs : List (ℚ × ℚ)) (i : ℕ) (songs : List (String × Song)) (errs : List String),
      process_chunks duration outs cs i songs errs =
        (chunk_songs duration outs cs i songs, errs ++ chunk_errors outs cs i) := by
  intro cs
  induction cs with
  | nil =>
    intro i songs errs
    simp [process_chunks, chunk_songs, chunk_errors]
  | cons c rest ih =>
    intro i songs errs
    obtain ⟨start_time, chunk_duration⟩ := c
    cases h : outs i with
    | err msg => simp [process_chunks, chunk_songs, chunk_errors, h, ih]
    | ok p =>
      cases p with
      | none => simp [process_chunks, chunk_songs, chunk_errors, h, ih]
      | some parsed => simp [process_chunks, chunk_songs, chunk_errors, h, ih]

theorem chunk_errors_eq_nil (outs : ℕ → ChunkOutcome) :
    ∀ (cs : List (ℚ × ℚ)) (i : ℕ),
      (∀ k msg, i ≤ k → outs k ≠ ChunkOutcome.err msg) →
      chunk_errors outs cs i = [] := by
  intro cs
  induction cs with
  | nil => intro i _; simp [chunk_errors]
  | cons c rest ih =>
    intro i h
    obtain ⟨start_time, chunk_duration⟩ := c
    cases h2 : outs i with
    | err msg => exact absurd h2 (h i msg (le_refl i))
    | ok p =>
      simp only [chunk_errors, h2, List.nil_append]
      exact ih (i + 1) fun k msg hk => h k msg (by omega)

theorem chunk_errors_single (outs : ℕ → ChunkOutcome) (j : ℕ) (msg : String)
    (hfail : outs j = ChunkOutcome.err msg)
    (hok : ∀ k m, k ≠ j → outs k ≠ ChunkOutcome.err m) :
    ∀ (cs : List (ℚ × ℚ)) (i : ℕ) (start_time chunk_duration : ℚ),
      i ≤ j → cs.get? (j - i) = some (start_time, chunk_duration) →
      chunk_errors outs cs i = [chunk_error j start_time msg] := by
  intro cs
  induction cs with
  | nil =>
    intro i s d _ hget
    simp at hget
  | cons c rest ih =>
    intro i s d hij hget
    obtain ⟨cs1, cd1⟩ := c
    by_cases hji : i = j
    · subst hji
      have h0 : i - i = 0 := by omega
      rw [h0] at hget
      simp only [List.get?] at hget
      have hs : cs1 = s := by
        injection hget with h
        injection h
      subst hs
      simp only [chunk_errors, hfail, List.singleton_append]
      rw [chunk_errors_eq_nil outs rest (i + 1) fun k m hk => hok k m (by omega)]
    · have hlt : i < j := by omega
      have hget2 : rest.get? (j - (i + 1)) = some (s, d) := by
        have hidx : j - i = (j - (i + 1)) + 1 := by omega
        rw [hidx] at hget
        simpa using hget
      cases h2 : outs i with
      | err m => exact absurd h2 (hok i m (by omega))
      | ok p =>
        simp only [chunk_errors, h2, List.nil_append]
        exact ih (i + 1) s d (by omega) hget2

theorem chunk_songs_patch (duration : ℚ) (outs : ℕ → ChunkOutcome) (j : ℕ)
    (msg : String) (hfail : outs j = ChunkOutcome.err msg) :
    ∀ (cs : List (ℚ × ℚ)) (i : ℕ) (songs : List (String × Song)),
      chunk_songs duration outs cs i songs =
        chunk_songs duration
          (fun k => if k = j then ChunkOutcome.ok none else outs k) cs i songs := by
  intro cs
  induction cs with
  | nil => intro i songs; simp [chunk_songs]
  | cons c rest ih =>
    intro i songs
    obtain ⟨start_time, chunk_duration⟩ := c
    by_cases hji : i = j
    · subst hji
      simp only [chunk_songs, hfail, if_pos rfl]
      exact ih (i + 1) songs
    · cases h2 : outs i with
      | err m =>
        simp only [chunk_songs, h2, if_neg hji]
        exact ih (i + 1) songs
      | ok p =>
        cases p with
        | none =>
          simp only [chunk_songs, h2, if_neg hji]
          exact ih (i + 1) songs
        | some parsed =>
          simp only [chunk_songs, h2, if_neg hji]
          exact ih (i + 1) _

/-- C5: if exactly one chunk `j` fails (with message `msg`), the analysis
records exactly the single error string built from that chunk's index and
formatted start time, and the song results are the same as if chunk `j` had
simply produced no match — every other chunk is still processed. -/
theorem C5_single_chunk_failure (duration : ℚ) (outs : ℕ → ChunkOutcome)
    (j : ℕ) (msg : String) (start_time chunk_duration : ℚ)
    (hj : (calc_chunks duration).get? j = some (start_time, chunk_duration))
    (hfail : outs j = ChunkOutcome.err msg)
    (hok : ∀ k m, k ≠ j → outs k ≠ ChunkOutcome.err m) :
    (analyze_video duration outs).errors = [chunk_error j start_time msg] ∧
    (analyze_video duration outs).songs =
      (analyze_video duration
        (fun k => if k = j then ChunkOutcome.ok none else outs k)).songs := by
  constructor
  · simp only [analyze_video]
    rw [process_chunks_eq]
    simp only [List.nil_append]
    exact chunk_errors_single outs j msg hfail hok (calc_chunks duration) 0
      start_time chunk_duration (by omega) (by simpa using hj)
  · simp only [analyze_video]
    rw [process_chunks_eq, process_chunks_eq]
    simp only
    rw [chunk_songs_patch duration outs j msg hfail]

/-- C5 witness: duration 20 gives chunks `[(0,15),(10,10)]`; chunk 1 fails
with message `boom` and the error list is exactly
`["Chunk 1 (00:10): boom"]`. -/
theorem C5_single_chunk_failure_witness :
    (calc_chunks 20).get? 1 = some (10, 10) ∧
    (analyze_video 20
        (fun k => if k = 1 then ChunkOutcome.err "boom" else ChunkOutcome.ok none)).errors =
      [chunk_error 1 10 "boom"] := by
  have hj : (calc_chunks 20).get? 1 = some (10, 10) := by
    norm_num [calc_chunks, chunk_plan, chunksLoop, CHUNK_DURATION, OVERLAP]
  refine ⟨hj, (C5_single_chunk_failure 20 _ 1 "boom" 10 10 hj ?_ ?_).1⟩
  · simp
  · intro k m hk
    simp [hk]

/-! ### Timestamp formatter: arithmetic facts -/

theorem floor_div_natCast (s : ℚ) (hs : 0 ≤ s) (k : ℕ) :
    ⌊s / (k : ℚ)⌋ = ((⌊s⌋₊ / k : ℕ) : ℤ) := by
  have h1 : ((⌊s / (k : ℚ)⌋₊ : ℕ) : ℤ) = ⌊s / (k : ℚ)⌋ :=
    Int.natCast_floor_eq_floor (div_nonneg hs (by positivity))
  rw [← h1, Nat.floor_div_nat]

theorem pymod_nonneg (s k : ℚ) (hk : 0 < k) : 0 ≤ pymod s k := by
  have h := Int.floor_le (s / k)
  have h2 : (⌊s / k⌋ : ℚ) * k ≤ s := (le_div_iff hk).mp h
  simp only [pymod]
  linarith [h2, mul_comm (⌊s / k⌋ : ℚ) k]

theorem pymod_floor (s : ℚ) (hs : 0 ≤ s) (k : ℕ) :
    ⌊pymod s (k : ℚ)⌋ = ((⌊s⌋₊ % k : ℕ) : ℤ) := by
  have hfl : ((⌊s⌋₊ : ℕ) : ℤ) = ⌊s⌋ := Int.natCast_floor_eq_floor hs
  have hsub : pymod s (k : ℚ) = s - (((k : ℤ) * ⌊s / (k : ℚ)⌋ : ℤ) : ℚ) := by
    simp only [pymod]
    push_cast
    ring
  rw [hsub, Int.floor_sub_int, floor_div_natCast s hs k, ← hfl]
  have hdm : ((⌊s⌋₊ % k + k * (⌊s⌋₊ / k) : ℕ) : ℤ) = ((⌊s⌋₊ : ℕ) : ℤ) := by
    rw [Nat.mod_add_div]
  simp only [Nat.cast_add, Nat.cast_mul] at hdm
  linarith

/-- C9: for every non-negative number of seconds, `format_timestamp`
truncates to the integer second count `n = ⌊s⌋₊` and renders zero-padded
two-digit fields — `MM:SS` (`n/60`, `n%60`) below one hour, `HH:MM:SS`
(`n/3600`, `n%3600/60`, `n%60`) from one hour on; in particular
`format_timestamp 125 = "02:05"` and `format_timestamp 3725 = "01:02:05"`. -/
theorem C9_format_timestamp :
    (∀ s : ℚ, 0 ≤ s →
      (s < 3600 →
        format_timestamp s =
          pad2 ((⌊s⌋₊ / 60 : ℕ) : ℤ) ++ ":" ++ pad2 ((⌊s⌋₊ % 60 : ℕ) : ℤ)) ∧
      (3600 ≤ s →
        format_timestamp s =
          pad2 ((⌊s⌋₊ / 3600 : ℕ) : ℤ) ++ ":" ++
            pad2 ((⌊s⌋₊ % 3600 / 60 : ℕ) : ℤ) ++ ":" ++
            pad2 ((⌊s⌋₊ % 60 : ℕ) : ℤ))) ∧
    format_timestamp 125 = "02:05" ∧ format_timestamp 3725 = "01:02:05" := by
  refine ⟨?_, ?_, ?_⟩
  · intro s hs
    have e3600 : (3600 : ℚ) = ((3600 : ℕ) : ℚ) := by norm_num
    have e60 : (60 : ℚ) = ((60 : ℕ) : ℚ) := by norm_num
    have hhours : ⌊s / (3600 : ℚ)⌋ = ((⌊s⌋₊ / 3600 : ℕ) : ℤ) := by
      rw [e3600, floor_div_natCast s hs 3600]
    have hq0 : 0 ≤ pymod s 3600 := pymod_nonneg s 3600 (by norm_num)
    have hqfl : ⌊pymod s (3600 : ℚ)⌋ = ((⌊s⌋₊ % 3600 : ℕ) : ℤ) := by
      rw [e3600, pymod_floor s hs 3600]
    have hqnat : ⌊pymod s (3600 : ℚ)⌋₊ = ⌊s⌋₊ % 3600 := by
      have := Int.floor_toNat (pymod s (3600 : ℚ))
      omega
    have hmins : ⌊pymod s (3600 : ℚ) / 60⌋ = ((⌊s⌋₊ % 3600 / 60 : ℕ) : ℤ) := by
      rw [e60, floor_div_natCast (pymod s 3600) hq0 60, hqnat]
    have hsecs : pyint (pymod s 60) = ((⌊s⌋₊ % 60 : ℕ) : ℤ) := by
      have h0 : 0 ≤ pymod s 60 := pymod_nonneg s 60 (by norm_num)
      simp only [pyint, if_pos h0]
      rw [e60, pymod_floor s hs 60]
    constructor
    · intro hlt
      have hn : ⌊s⌋₊ < 3600 := by
        rw [Nat.floor_lt hs]
        exact_mod_cast hlt
      have hz : ⌊s⌋₊ / 3600 = 0 := by omega
      simp only [format_timestamp, hhours, hmins, hsecs]
      rw [if_neg (show ¬ (0 : ℤ) < ((⌊s⌋₊ / 3600 : ℕ) : ℤ) by rw [hz]; norm_num),
        Nat.mod_eq_of_lt hn]
    · intro hge
      have hn : 3600 ≤ ⌊s⌋₊ := Nat.le_floor (by exact_mod_cast hge)
      have hzp : 0 < ⌊s⌋₊ / 3600 := by omega
      simp only [format_timestamp, hhours, hmins, hsecs]
      rw [if_pos (show (0 : ℤ) < ((⌊s⌋₊ / 3600 : ℕ) : ℤ) by exact_mod_cast hzp)]
  · norm_num [format_timestamp, pymod, pyint, pad2]
    decide
  · norm_num [format_timestamp, pymod, pyint, pad2]
    decide

/-- C9 witness: the MM:SS branch at 125 seconds (`125/60 = 2`, `125%60 = 5`). -/
theorem C9_format_timestamp_witness :
    (0 : ℚ) ≤ 125 ∧ (125 : ℚ) < 3600 ∧
      format_timestamp 125 =
        pad2 ((⌊(125 : ℚ)⌋₊ / 60 : ℕ) : ℤ) ++ ":" ++ pad2 ((⌊(125 : ℚ)⌋₊ % 60 : ℕ) : ℤ) :=
  ⟨by norm_num, by norm_num,
    (C9_format_timestamp.1 125 (by norm_num)).1 (by norm_num)⟩

/-- C8: with missing credentials both recognizers return their structured
`not configured` dict (no exception is modelled — the guard returns before
any network call), both normalizers map that dict to `none` (no match), and a
chunk whose outcome is `no match` adds nothing to the error list or to the
grouping — the analysis continues normally. -/
theorem C8_not_configured :
    (∀ (access_secret : String) (response : JVal),
        recognize_with_acrcloud "" access_secret response =
          JVal.obj [("error", JVal.str "ACRCloud credentials not configured")] ∧
        parse_acrcloud_result (recognize_with_acrcloud "" access_secret response) = none) ∧
    (∀ (access_key : String) (response : JVal),
        recognize_with_acrcloud access_key "" response =
          JVal.obj [("error", JVal.str "ACRCloud credentials not configured")] ∧
        parse_acrcloud_result (recognize_with_acrcloud access_key "" response) = none) ∧
    (∀ response : JVal,
        recognize_with_audd "" response =
          JVal.obj [("error", JVal.str "AudD API token not configured")] ∧
        parse_audd_result (recognize_with_audd "" response) = none) ∧
    (∀ (duration : ℚ) (outs : ℕ → ChunkOutcome) (i : ℕ) (c : ℚ × ℚ)
        (songs : List (String × Song)) (errs : List String),
        outs i = ChunkOutcome.ok none →
        process_chunks duration outs [c] i songs errs = (songs, errs)) := by
  refine ⟨?_, ?_, ?_, ?_⟩
  · intro access_secret response
    have h : recognize_with_acrcloud "" access_secret response =
        JVal.obj [("error", JVal.str "ACRCloud credentials not configured")] := by
      simp [recognize_with_acrcloud]
    exact ⟨h, by rw [h]; rfl⟩
  · intro access_key response
    have h : recognize_with_acrcloud access_key "" response =
        JVal.obj [("error", JVal.str "ACRCloud credentials not configured")] := by
      simp [recognize_with_acrcloud]
    exact ⟨h, by rw [h]; rfl⟩
  · intro response
    have h : recognize_with_audd "" response =
        JVal.obj [("error", JVal.str "AudD API token not configured")] := by
      simp [recognize_with_audd]
    exact ⟨h, by rw [h]; rfl⟩
  · intro duration outs i c songs errs h
    obtain ⟨start_time, chunk_duration⟩ := c
    simp [process_chunks, h]

/-- C8 witness: the concrete run — empty ACRCloud key, the parse of the
`not configured` dict, and a one-chunk loop with a no-match outcome. -/
theorem C8_not_configured_witness :
    ((fun _ => ChunkOutcome.ok none) 0 = ChunkOutcome.ok none) ∧
    (recognize_with_acrcloud "" "secret" (JVal.obj []) =
        JVal.obj [("error", JVal.str "ACRCloud credentials not configured")] ∧
      parse_acrcloud_result (recognize_with_acrcloud "" "secret" (JVal.obj [])) = none) ∧
    process_chunks 20 (fun _ => ChunkOutcome.ok none) [((0 : ℚ), (15 : ℚ))] 0 [] [] =
      ([], []) :=
  ⟨rfl, C8_not_configured.1 "secret" (JVal.obj []),
    C8_not_configured.2.2.2 20 (fun _ => ChunkOutcome.ok none) 0 (0, 15) [] [] rfl⟩

/-- First record of the key-collision example: title `A|B`, single artist
`C`. -/
def collide_record_fst : SongRecord :=
  { title := "A|B", artists := ["C"], album := "X", release_date := "2020",
    label := "L", duration := 0, confidence := 90 }

/-- Second record of the key-collision example: title `A`, artists `B`, `C` —
a different song, same identity key `A|B|C`. -/
def collide_record_snd : SongRecord :=
  { title := "A", artists := ["B", "C"], album := "Y", release_date := "2021",
    label := "M", duration := 0, confidence := 80 }

/-- C10: the identity key `title + "|" + "|".join(artists)` is not injective:
the two distinct records above share the key `A|B|C`, so recording a match
for each groups them into a single entry that keeps the first-seen record's
metadata (and accumulates both time ranges). -/
theorem C10_song_key_collision :
    song_key collide_record_fst = song_key collide_record_snd ∧
    ¬ (collide_record_fst.title = collide_record_snd.title ∧
        collide_record_fst.artists = collide_record_snd.artists) ∧
    record_match 100 (record_match 100 [] collide_record_fst 0 15)
        collide_record_snd 10 15 =
      [("A|B|C",
        { record := collide_record_fst
          timestamps := [0, 10]
          time_ranges := [⟨"00:00", "00:15", 0, 15⟩, ⟨"00:10", "00:25", 10, 25⟩] })] := by
  refine ⟨rfl, by decide, ?_⟩
  norm_num [record_match, song_key, collide_record_fst, collide_record_snd,
    Song.ofRecord, mk_time_range, format_timestamp, pymod, pyint, pad2,
    List.any, List.find?]
  decide

end SoundScan
